import Mathlib

set_option maxRecDepth 8000

namespace FindAll

/-! Shallow embedding of the FindAll desktop-search core, translated from the
Rust sources: the query parser (`src-tauri/src/indexer/query_parser.rs`), the
searcher (`src/indexer/searcher.rs`), the index writer
(`src-tauri/src/indexer/writer.rs`), the metadata catalog
(`src-tauri/src/metadata/db.rs`), the scanner pipeline (`src/scanner/mod.rs`),
the watcher (`src/watcher.rs`) and the preview command
(`src-tauri/src/commands/search.rs`).

Modelling conventions: Rust strings are `String` / `List Char`; Rust `u64` is
`Nat` with explicit `2 ^ 64` bounds where overflow or saturation matters; Rust
Unicode case mapping is modelled by ASCII case mapping (all concrete inputs
used below are ASCII); the f64 arithmetic in the size operator is modelled
exactly over the integers (it is exact for every input considered here). -/

/-- The double-quote character, written via its code point. -/
def quoteChar : Char := Char.ofNat 34

/-- ASCII lower-casing of one character, standing in for Rust `to_lowercase`. -/
def lowerChar (c : Char) : Char := c.toLower

/-- Lower-case a character list. -/
def lowerL (cs : List Char) : List Char := cs.map lowerChar

/-- Lower-case a string (Rust `str::to_lowercase`, ASCII fragment). -/
def lowerString (s : String) : String := String.mk (lowerL s.toList)

/-- Whitespace test (ASCII fragment of Rust `char::is_whitespace`). -/
def isWsChar (c : Char) : Bool := c.isWhitespace

/-- Does `hay` start with `pat`? -/
def startsWithL : List Char → List Char → Bool
  | _, [] => true
  | [], _ :: _ => false
  | c :: cs, p :: ps => c == p && startsWithL cs ps

/-- Does `hay` contain `pat` as a contiguous sublist? (Rust `str::contains`:
an empty pattern is always contained.) -/
def containsL : List Char → List Char → Bool
  | [], pat => pat.isEmpty
  | c :: cs, pat => startsWithL (c :: cs) pat || containsL cs pat

/-- Rust `str::contains` on strings. -/
def containsSubstr (s sub : String) : Bool := containsL s.toList sub.toList

/-- Does `hay` end with `suf`? (Rust `str::ends_with`.) -/
def endsWithL (hay suf : List Char) : Bool := startsWithL hay.reverse suf.reverse

/-- Rust `str::ends_with` on strings. -/
def strEndsWith (s suf : String) : Bool := endsWithL s.toList suf.toList

/-- Numeric value of a digit string (48 is the code point of the digit 0). -/
def digitsToNat (ds : List Char) : Nat := ds.foldl (fun a c => a * 10 + (c.toNat - 48)) 0

/-- Case-insensitive literal match: if the lower-cased input starts with the
(lower-case) pattern, return the consumed original characters and the rest. -/
def matchCI : List Char → List Char → Option (List Char × List Char)
  | [], cs => some ([], cs)
  | _ :: _, [] => none
  | p :: ps, c :: cs =>
    if lowerChar c == p then
      match matchCI ps cs with
      | some (con, rest) => some (c :: con, rest)
      | none => none
    else none

/-! ### The operator regex of `ParsedQuery::parse`

The Rust parser scans the input with the regex
`(?i)(ext|path|title|size):(?:([<>]?)(\d+(?:\.\d+)?)(MB|KB|GB|B)?|"([^"]*)"|(\S+))`.
The functions below implement exactly this regex (leftmost, non-overlapping
matches, alternatives tried in order), returning the capture groups. -/

/-- Capture groups 2-4 of the operator regex: the optional `<`/`>` sign, the
integer digits, the optional fractional digits, and the optional unit. -/
structure SizedCap where
  sign : List Char
  intPart : List Char
  fracPart : List Char
  unitCap : Option (List Char)

/-- One full match of the operator regex: the whole matched text (group 0),
the lower-cased operator name (group 1), and the value alternatives
(groups 2-4 / group 5 / group 6). -/
structure OpMatch where
  whole : List Char
  opName : String
  sized : Option SizedCap
  quoted : Option (List Char)
  word : Option (List Char)

/-- Match the optional unit `(MB|KB|GB|B)?`, case-insensitively, alternatives
in regex order. -/
def matchUnit (cs : List Char) : Option (List Char) × List Char :=
  match matchCI ['m', 'b'] cs with
  | some (con, rest) => (some con, rest)
  | none =>
    match matchCI ['k', 'b'] cs with
    | some (con, rest) => (some con, rest)
    | none =>
      match matchCI ['g', 'b'] cs with
      | some (con, rest) => (some con, rest)
      | none =>
        match matchCI ['b'] cs with
        | some (con, rest) => (some con, rest)
        | none => (none, cs)

/-- Match the sized alternative `([<>]?)(\d+(?:\.\d+)?)(MB|KB|GB|B)?`.
Returns the captures, the consumed text and the rest. -/
def matchSized (cs : List Char) : Option (SizedCap × List Char × List Char) :=
  let signRest : List Char × List Char :=
    match cs with
    | c :: rest => if c == '<' || c == '>' then ([c], rest) else ([], c :: rest)
    | [] => ([], [])
  let sign := signRest.1
  let cs1 := signRest.2
  let ds := cs1.takeWhile Char.isDigit
  let cs2 := cs1.dropWhile Char.isDigit
  if ds.isEmpty then none
  else
    let fracRest : List Char × List Char :=
      match cs2 with
      | c :: rest =>
        if c == '.' then
          let fs := rest.takeWhile Char.isDigit
          if fs.isEmpty then ([], c :: rest) else (fs, rest.dropWhile Char.isDigit)
        else ([], c :: rest)
      | [] => ([], [])
    let frac := fracRest.1
    let cs3 := fracRest.2
    let unitRes := matchUnit cs3
    let consumed := sign ++ ds ++ (if frac.isEmpty then [] else '.' :: frac) ++ unitRes.1.getD []
    some ({ sign := sign, intPart := ds, fracPart := frac, unitCap := unitRes.1 }, consumed, unitRes.2)

/-- Match the quoted alternative `"([^"]*)"`. Returns the inner capture, the
consumed text (quotes included) and the rest. -/
def matchQuoted (cs : List Char) : Option (List Char × List Char × List Char) :=
  match cs with
  | c :: rest =>
    if c == quoteChar then
      let inner := rest.takeWhile (fun x => x != quoteChar)
      let rest2 := rest.dropWhile (fun x => x != quoteChar)
      match rest2 with
      | _ :: rest3 => some (inner, quoteChar :: (inner ++ [quoteChar]), rest3)
      | [] => none
    else none
  | [] => none

/-- Match the bare-word alternative `(\S+)`. -/
def matchWord (cs : List Char) : Option (List Char × List Char) :=
  let w := cs.takeWhile (fun c => !isWsChar c)
  if w.isEmpty then none else some (w, cs.dropWhile (fun c => !isWsChar c))

/-- Try to match the whole operator regex at the current position for one
operator name (case-insensitive), trying the three value alternatives in
regex order. -/
def tryOpNamed (nm : String) (cs : List Char) : Option (OpMatch × List Char) :=
  match matchCI nm.toList cs with
  | none => none
  | some (nameCon, rest1) =>
    match rest1 with
    | c :: rest2 =>
      if c == ':' then
        match matchSized rest2 with
        | some (sz, vcon, rest3) =>
          some ({ whole := nameCon ++ c :: vcon, opName := nm, sized := some sz,
                  quoted := none, word := none }, rest3)
        | none =>
          match matchQuoted rest2 with
          | some (inner, vcon, rest3) =>
            some ({ whole := nameCon ++ c :: vcon, opName := nm, sized := none,
                    quoted := some inner, word := none }, rest3)
          | none =>
            match matchWord rest2 with
            | some (w, rest3) =>
              some ({ whole := nameCon ++ c :: w, opName := nm, sized := none,
                      quoted := none, word := some w }, rest3)
            | none => none
      else none
    | [] => none

/-- Try the four operator names at the current position (their first letters
are distinct, so at most one can match). -/
def tryMatchOperatorAt (cs : List Char) : Option (OpMatch × List Char) :=
  match tryOpNamed "ext" cs with
  | some r => some r
  | none =>
    match tryOpNamed "path" cs with
    | some r => some r
    | none =>
      match tryOpNamed "title" cs with
      | some r => some r
      | none => tryOpNamed "size" cs

/-- Scan for leftmost, non-overlapping matches (Rust `captures_iter`). The
fuel is the input length; every step consumes at least one character. -/
def findOpsAux : Nat → List Char → List OpMatch
  | 0, _ => []
  | _ + 1, [] => []
  | fuel + 1, c :: cs =>
    match tryMatchOperatorAt (c :: cs) with
    | some (m, rest) => m :: findOpsAux fuel rest
    | none => findOpsAux fuel cs

/-- All operator matches of the input, left to right. -/
def findOperatorMatches (cs : List Char) : List OpMatch := findOpsAux cs.length cs

/-- Rust `String::replace(pat, "")`: remove all non-overlapping occurrences of
`pat`, scanning left to right. The fuel is the target length. -/
def removeAllAux : Nat → List Char → List Char → List Char
  | 0, _, cs => cs
  | _ + 1, _, [] => []
  | fuel + 1, pat, c :: cs =>
    if !pat.isEmpty && startsWithL (c :: cs) pat then
      removeAllAux fuel pat (List.drop pat.length (c :: cs))
    else c :: removeAllAux fuel pat cs

/-- Remove every occurrence of `pat` from `target`. -/
def removeAll (pat target : List Char) : List Char := removeAllAux target.length pat target

/-- Split on whitespace, dropping empty fragments (Rust `split_whitespace`). -/
def splitWSL (cs : List Char) : List (List Char) :=
  (cs.foldr
    (fun c acc =>
      if isWsChar c then [] :: acc
      else
        match acc with
        | [] => [[c]]
        | t :: ts => (c :: t) :: ts)
    []).filter (fun t => !t.isEmpty)

/-- Join fragments with single spaces (Rust `Vec::join(" ")`). -/
def joinWithSpace : List (List Char) → List Char
  | [] => []
  | [t] => t
  | t :: ts => t ++ ' ' :: joinWithSpace ts

/-- Rust `str::trim` (a no-op after `split_whitespace` + `join`, kept for
fidelity with the source). -/
def trimL (cs : List Char) : List Char :=
  ((cs.dropWhile isWsChar).reverse.dropWhile isWsChar).reverse

/-- Rust `u64::from_str`: optional leading plus sign, at least one digit,
error on overflow past `u64::MAX`. -/
def parseU64 (cs : List Char) : Option Nat :=
  let ds :=
    match cs with
    | c :: rest => if c == '+' then rest else c :: rest
    | [] => []
  if !ds.isEmpty && ds.all Char.isDigit then
    let v := digitsToNat ds
    if v < 2 ^ 64 then some v else none
  else none

/-- Unit multiplier of the size operator: the source upper-cases the captured
unit and maps GB/MB/KB, everything else (including the bare `B`) to 1. -/
def unitMultiplier (u : Option (List Char)) : Nat :=
  match u with
  | some cs =>
    let up := lowerL cs
    if up == ['g', 'b'] then 1024 * 1024 * 1024
    else if up == ['m', 'b'] then 1024 * 1024
    else if up == ['k', 'b'] then 1024
    else 1
  | none => 1

/-- Byte count of the size operator: the source computes
`(num * multiplier as f64) as u64`; over the integers this is exactly
`((intPart * 10 ^ k + fracPart) * mult) / 10 ^ k` with `k` fractional digits
(truncation toward zero; exact for the inputs considered in this file). -/
def sizedBytes (intPart fracPart : List Char) (mult : Nat) : Nat :=
  let k := fracPart.length
  ((digitsToNat intPart * 10 ^ k + digitsToNat fracPart) * mult) / 10 ^ k

/-- Accumulator of `ParsedQuery::parse`: the five filter fields plus the
`remaining` text being stripped of operator matches. -/
structure ParseState where
  extension : Option String
  pathFilter : Option String
  titleFilter : Option String
  minSize : Option Nat
  maxSize : Option Nat
  remaining : List Char

/-- Process one operator capture, exactly as the `match operator.as_str()`
arms of the source: set the field (last one wins) and strip the matched text
from `remaining`. In the `size` arm, a sized capture consults the sign
(`>` sets `min_size`, `<` sets `max_size`, nothing otherwise); a plain word
that parses as `u64` sets `min_size = v` and `max_size = v + 1`. -/
def applyOpMatch (st : ParseState) (m : OpMatch) : ParseState :=
  let value : List Char := (m.quoted.orElse fun _ => m.word).getD []
  match m.opName with
  | "ext" =>
    { st with
      extension := some (String.mk (lowerL (value.dropWhile (fun c => c == '.')))),
      remaining := removeAll m.whole st.remaining }
  | "path" =>
    { st with pathFilter := some (String.mk (lowerL value)),
              remaining := removeAll m.whole st.remaining }
  | "title" =>
    { st with titleFilter := some (String.mk (lowerL value)),
              remaining := removeAll m.whole st.remaining }
  | "size" =>
    let st1 :=
      match m.sized with
      | some sz =>
        let bytes := sizedBytes sz.intPart sz.fracPart (unitMultiplier sz.unitCap)
        if sz.sign == ['>'] then { st with minSize := some bytes }
        else if sz.sign == ['<'] then { st with maxSize := some bytes }
        else st
      | none =>
        match parseU64 value with
        | some v => { st with minSize := some v, maxSize := some (v + 1) }
        | none => st
    { st1 with remaining := removeAll m.whole st1.remaining }
  | _ => st

/-- The parsed query of `query_parser.rs` (field `fuzzy` is always true in
the source). -/
structure ParsedQuery where
  textQuery : String
  extension : Option String
  pathFilter : Option String
  titleFilter : Option String
  minSize : Option Nat
  maxSize : Option Nat
  fuzzy : Bool
deriving DecidableEq

/-- Run the operator loop of `ParsedQuery::parse` over all matches. -/
def parseOperators (input : String) : ParseState :=
  (findOperatorMatches input.toList).foldl applyOpMatch
    { extension := none, pathFilter := none, titleFilter := none,
      minSize := none, maxSize := none, remaining := input.toList }

/-- The cleaned free-text portion: the stripped remainder, whitespace-split,
space-joined and trimmed. -/
def cleanedFreeText (input : String) : String :=
  String.mk (trimL (joinWithSpace (splitWSL (parseOperators input).remaining)))

/-- `ParsedQuery::parse`: extract the operators, then substitute the wildcard
`*` when the free-text portion is empty. -/
def ParsedQuery.parse (input : String) : ParsedQuery :=
  let st := parseOperators input
  let t := cleanedFreeText input
  { textQuery := if t == "" then "*" else t,
    extension := st.extension, pathFilter := st.pathFilter, titleFilter := st.titleFilter,
    minSize := st.minSize, maxSize := st.maxSize, fuzzy := true }

/-- `ParsedQuery::matches_extension`: the lower-cased path must end with
`.ext`. -/
def ParsedQuery.matchesExtension (p : ParsedQuery) (path : String) : Bool :=
  match p.extension with
  | some e => strEndsWith (lowerString path) (String.mk ('.' :: e.toList))
  | none => true

/-- `ParsedQuery::matches_path`: case-insensitive substring test of the
stored (already lower-cased) filter against the path. -/
def ParsedQuery.matchesPath (p : ParsedQuery) (path : String) : Bool :=
  match p.pathFilter with
  | some f => containsSubstr (lowerString path) f
  | none => true

/-- `ParsedQuery::matches_title`: case-insensitive substring test against
the title; a missing title fails a present filter. -/
def ParsedQuery.matchesTitle (p : ParsedQuery) (title : Option String) : Bool :=
  match p.titleFilter with
  | some f =>
    match title with
    | some t => containsSubstr (lowerString t) f
    | none => false
  | none => true

/-- Split on the space character only, dropping empty fragments: this is what
the `memchr(b' ', ...)` loop of `extract_highlight_terms` computes (empty
segments are skipped by its `is_empty` checks). -/
def splitOnSpace (cs : List Char) : List (List Char) :=
  (cs.foldr
    (fun c acc =>
      if c == ' ' then [] :: acc
      else
        match acc with
        | [] => [[c]]
        | t :: ts => (c :: t) :: ts)
    []).filter (fun t => !t.isEmpty)

/-- `extract_highlight_terms`: split the parsed text query on spaces,
lower-case, drop `*`; if nothing is left and the text query is `*`, keep a
single `*`; finally append the title filter when present. -/
def extractHighlightTerms (query : String) : List String :=
  let parsed := ParsedQuery.parse query
  let segs := splitOnSpace parsed.textQuery.toList
  let terms := segs.filterMap (fun t =>
    let low := lowerL t
    if low.isEmpty || low == ['*'] then none else some (String.mk low))
  let terms2 := if terms.isEmpty && parsed.textQuery == "*" then ["*"] else terms
  match parsed.titleFilter with
  | some tf => terms2 ++ [tf]
  | none => terms2

/-! ### The searcher (`src/indexer/searcher.rs`)

`IndexSearcher::search` checks the query cache, parses the query, builds the
query tree (`build_fuzzy_query` plus size-range and extension clauses from its
explicit arguments), executes it with `TopDocs::with_limit(limit)` and maps
the hits to `SearchResult`s. The model below is the cache-miss path of a
fresh searcher (the query cache is modelled separately for the commit /
invalidate discipline). BM25 score ordering is not modelled: hits are listed
in index order, so whenever at most `limit` documents match, the returned
list is exactly the matching documents. -/

/-- One indexed document, with the fields of `create_tantivy_document`
(`schema.rs`: `file_path`, `content`, `title`, `modified`, `size`). -/
structure TantivyDoc where
  filePath : String
  content : String
  title : Option String
  modified : Nat
  size : Nat
deriving DecidableEq

/-- The tantivy `default` tokenizer used for the `content` and `title`
fields: split on non-alphanumeric characters, drop tokens of 40 or more
characters (`RemoveLongFilter::limit(40)`), lower-case the rest. -/
def tokenize (s : String) : List String :=
  ((s.toList.foldr
      (fun c acc =>
        if c.isAlphanum then
          match acc with
          | [] => [[c]]
          | t :: ts => (c :: t) :: ts
        else [] :: acc)
      []).filter (fun t => !t.isEmpty)).filterMap
    (fun t => if t.length < 40 then some (String.mk (lowerL t)) else none)

/-- Occurrence flag of a tantivy boolean clause. -/
inductive Occur where
  | must
  | should

/-- Is the clause a `Must` clause? -/
def isMust : Occur → Bool
  | .must => true
  | .should => false

/-- The query tree built by the searcher: match-all, exact term, fuzzy term
(Levenshtein bound), the `QueryParser` branch taken for quoted phrases, the
inclusive `u64` range on `size`, the suffix regex used for extension
filtering, and boolean composition. -/
inductive TQuery where
  | allQ
  | termQ (field : String) (text : String)
  | fuzzyQ (field : String) (text : String) (dist : Nat)
  | phraseParsed (raw : String)
  | rangeSizeQ (lo hi : Nat)
  | regexPathSuffix (suffix : String)
  | boolQ (clauses : List (Occur × TQuery))

/-- Classic Levenshtein distance, with fuel (the summed lengths) so that the
definition is structurally recursive and kernel-evaluable. -/
def levAux : Nat → List Char → List Char → Nat
  | _, [], ys => ys.length
  | _, x :: xs, [] => (x :: xs).length
  | 0, xs, ys => xs.length + ys.length
  | fuel + 1, x :: xs, y :: ys =>
    if x == y then levAux fuel xs ys
    else 1 + Nat.min (levAux fuel xs (y :: ys)) (Nat.min (levAux fuel (x :: xs) ys) (levAux fuel xs ys))

/-- Levenshtein distance between two character lists. -/
def lev (a b : List Char) : Nat := levAux (a.length + b.length) a b

/-- Indexed terms of a field: `content` and `title` are tokenized text,
`file_path` is a single raw term (`STRING`, untokenized). -/
def fieldTokens (field : String) (d : TantivyDoc) : List String :=
  if field == "content" then tokenize d.content
  else if field == "title" then tokenize (d.title.getD "")
  else if field == "file_path" then [d.filePath]
  else []

mutual

/-- Evaluate a query tree against one document. The first argument gives the
semantics of the external `QueryParser` phrase branch (tantivy library code,
never evaluated by the statements below). Tantivy boolean semantics: all
`Must` clauses hold, and when there is no `Must` clause at least one
`Should` clause holds. -/
def evalQuery (ps : String → TantivyDoc → Bool) (d : TantivyDoc) : TQuery → Bool
  | .allQ => true
  | .termQ f t => (fieldTokens f d).contains t
  | .fuzzyQ f t k => (fieldTokens f d).any (fun tok => decide (lev tok.toList t.toList ≤ k))
  | .phraseParsed raw => ps raw d
  | .rangeSizeQ lo hi => decide (lo ≤ d.size) && decide (d.size ≤ hi)
  | .regexPathSuffix suf => strEndsWith d.filePath suf
  | .boolQ cls =>
    evalMustAll ps d cls &&
      (cls.any (fun c => isMust c.1) || evalShouldAny ps d cls)

/-- Do all `Must` clauses of the list hold? -/
def evalMustAll (ps : String → TantivyDoc → Bool) (d : TantivyDoc) :
    List (Occur × TQuery) → Bool
  | [] => true
  | c :: cs => (if isMust c.1 then evalQuery ps d c.2 else true) && evalMustAll ps d cs

/-- Does some `Should` clause of the list hold? -/
def evalShouldAny (ps : String → TantivyDoc → Bool) (d : TantivyDoc) :
    List (Occur × TQuery) → Bool
  | [] => false
  | c :: cs => (if isMust c.1 then false else evalQuery ps d c.2) || evalShouldAny ps d cs

end

/-- Does the text contain a quoted phrase? This is the `"([^"]+)"` regex
test of `build_fuzzy_query` (some quote followed by at least one non-quote
character and a closing quote). -/
def hasQuotedPhraseL : List Char → Bool
  | [] => false
  | c :: cs =>
    if c == quoteChar then
      let inner := cs.takeWhile (fun x => x != quoteChar)
      let rest := cs.dropWhile (fun x => x != quoteChar)
      if !inner.isEmpty && !rest.isEmpty then true else hasQuotedPhraseL cs
    else hasQuotedPhraseL cs

/-- String version of the quoted-phrase test. -/
def hasQuotedPhrase (s : String) : Bool := hasQuotedPhraseL s.toList

/-- Whitespace tokens of a string. -/
def splitWSStr (s : String) : List String := (splitWSL s.toList).map String.mk

/-- The per-token query of `build_fuzzy_query`: a boolean OR of the exact
term query and the fuzzy term query with Levenshtein distance 2, both on
`content`. -/
def orPair (t : String) : TQuery :=
  .boolQ [(.should, .termQ "content" t), (.should, .fuzzyQ "content" t 2)]

/-- `IndexSearcher::build_fuzzy_query`: quoted phrases go through the
positional `QueryParser`; otherwise the whitespace tokens are each an
exact-or-fuzzy OR, a single `*` (or no token) is match-all, and multiple
tokens are combined with AND (`Occur::Must`). -/
def buildFuzzyQuery (textQuery : String) : TQuery :=
  if hasQuotedPhrase textQuery then .phraseParsed textQuery
  else
    let terms := splitWSStr textQuery
    if terms.isEmpty || (terms.length == 1 && terms.headD "" == "*") then .allQ
    else if terms.length == 1 then orPair (terms.headD "")
    else .boolQ (terms.map (fun t => (.must, orPair t)))

/-- `u64::MAX`, the upper bound of the min-size range clause. -/
def u64Max : Nat := 2 ^ 64 - 1

/-- A search hit as returned to the UI (the f32 BM25 score is not modelled;
no settled statement concerns it). -/
structure SearchResult where
  filePath : String
  title : Option String
  matchedTerms : List String
deriving DecidableEq

/-- The outcome of a `search` call: normal results, a propagated error, or a
Rust panic. -/
inductive SearchOutcome where
  | panicked
  | ok (results : List SearchResult)
  | err (msg : String)
deriving DecidableEq

/-- Extension argument normalization of the searcher: lower-case and prefix
a dot unless one is present. -/
def extWithDot (e : String) : String :=
  let low := lowerL e.toList
  match low with
  | c :: _ => if c == '.' then String.mk low else String.mk ('.' :: low)
  | [] => String.mk ('.' :: low)

/-- The size-range clauses built from the explicit `min_size` / `max_size`
arguments: inclusive `[min, u64::MAX]` and inclusive `[0, max]`. -/
def sizeClauses (minSize maxSize : Option Nat) : List (Occur × TQuery) :=
  (match minSize with
   | some m => [(Occur.must, TQuery.rangeSizeQ m u64Max)]
   | none => []) ++
  (match maxSize with
   | some m => [(Occur.must, TQuery.rangeSizeQ 0 m)]
   | none => [])

/-- The extension clause built from the explicit `file_extensions` argument:
a disjunction of suffix-regex queries on `file_path`, ANDed in. -/
def extensionClause (exts : Option (List String)) : List (Occur × TQuery) :=
  match exts with
  | none => []
  | some es =>
    if es.isEmpty then []
    else
      let qs := es.map (fun e => TQuery.regexPathSuffix (extWithDot e))
      if qs.isEmpty then []
      else [(Occur.must, TQuery.boolQ (qs.map (fun q => (Occur.should, q))))]

/-- The body of `IndexSearcher::search` after the query string has been
parsed: build the combined query, call `TopDocs::with_limit(limit)` — which
asserts `limit >= 1` and panics otherwise — and map the hits. Note that of
the parsed query only `text_query` is consulted: the parsed `path_filter`,
`title_filter`, `min_size`, `max_size` and `extension` fields are never
read here; size and extension filtering comes only from the explicit
arguments. -/
def searchCore (ps : String → TantivyDoc → Bool) (index : List TantivyDoc)
    (parsed : ParsedQuery) (highlightTerms : List String) (limit : Nat)
    (minSize maxSize : Option Nat) (exts : Option (List String)) : SearchOutcome :=
  let textQ := buildFuzzyQuery parsed.textQuery
  let combine := [(Occur.must, textQ)] ++ sizeClauses minSize maxSize ++ extensionClause exts
  let finalQ :=
    match combine with
    | [c] => c.2
    | cs => TQuery.boolQ cs
  if limit == 0 then .panicked
  else
    let hits := (index.filter (fun d => evalQuery ps d finalQ)).take limit
    .ok (hits.map (fun d =>
      { filePath := d.filePath, title := d.title, matchedTerms := highlightTerms }))

/-- `IndexSearcher::search` on a fresh (empty) query cache: parse, extract
highlight terms, run the core. -/
def search (ps : String → TantivyDoc → Bool) (index : List TantivyDoc) (query : String)
    (limit : Nat) (minSize maxSize : Option Nat) (exts : Option (List String)) : SearchOutcome :=
  searchCore ps index (ParsedQuery.parse query) (extractHighlightTerms query) limit
    minSize maxSize exts

/-- Placeholder semantics for the external tantivy `QueryParser` phrase
branch; no statement below ever evaluates this branch (the queries used
contain no quotes). -/
def phraseSemUnspecified : String → TantivyDoc → Bool := fun _ _ => false

/-! ### The index writer (`src-tauri/src/indexer/writer.rs`)

`IndexWriterManager` wraps a single tantivy `IndexWriter`. Its only write
operations are `add_document` / `add_documents_batch` (which enqueue adds)
and `commit`; the file contains no `delete_term` call, so the set of live
documents is modelled as a list that batch adds simply extend. -/

/-- The output of a format parser: `ParsedDocument { path, content, title }`
(`parsers/mod.rs`). -/
structure ParsedDocument where
  path : String
  content : String
  title : Option String
deriving DecidableEq

/-- `create_tantivy_document`: build the indexed document from the parsed
document plus `modified` and `size`. -/
def createTantivyDocument (doc : ParsedDocument) (modified size : Nat) : TantivyDoc :=
  { filePath := doc.path, content := doc.content, title := doc.title,
    modified := modified, size := size }

/-- `IndexWriterManager::add_documents_batch`: under one writer lock, call
`writer.add_document` for every entry. No deletion of any kind precedes the
adds. -/
def addDocumentsBatch (index : List TantivyDoc)
    (docs : List (ParsedDocument × Nat × Nat)) : List TantivyDoc :=
  index ++ docs.map (fun e => createTantivyDocument e.1 e.2.1 e.2.2)

/-! ### The watcher (`src/watcher.rs`)

Raw filesystem events are collapsed into a buffer `path → action` by the
closure installed in `update_watch_list`; a background task drains the
buffer every second, applies the removes (delete-by-term on `file_path`
plus catalog remove), batch-adds the index actions, and commits once. -/

/-- The buffered action per path. -/
inductive WatcherAction where
  | indexAct
  | removeAct
deriving DecidableEq

/-- The kinds of `notify` events the handler distinguishes. -/
inductive FsEventKind where
  | createEv
  | modifyEv
  | removeEv
  | otherEv

/-- Insertion into the event buffer (a hash map keyed by path: the last
writer wins). -/
def bufferInsert (buf : List (String × WatcherAction)) (p : String) (a : WatcherAction) :
    List (String × WatcherAction) :=
  (buf.filter (fun e => e.1 != p)) ++ [(p, a)]

/-- The event-handler closure of `update_watch_list`: for `Modify`, `Create`
and `Remove` events it walks the event's paths and — only when
`path.is_file()` holds at handling time (the boolean paired with each
path) — inserts `Remove` for remove events and `Index` otherwise. Other
event kinds are ignored. -/
def handleFsEvent (buf : List (String × WatcherAction)) (kind : FsEventKind)
    (paths : List (String × Bool)) : List (String × WatcherAction) :=
  match kind with
  | .otherEv => buf
  | k =>
    paths.foldl
      (fun b pr =>
        if pr.2 then
          bufferInsert b pr.1
            (match k with
             | .removeEv => .removeAct
             | _ => .indexAct)
        else b)
      buf

/-- The paths the debounce tick will remove: all buffered `Remove` entries. -/
def tickRemovePaths (events : List (String × WatcherAction)) : List String :=
  (events.filter (fun e => decide (e.2 = WatcherAction.removeAct))).map (fun e => e.1)

/-- `IndexManager::remove_document`, a delete-by-term on `file_path`. -/
def removeDocument (index : List TantivyDoc) (p : String) : List TantivyDoc :=
  index.filter (fun d => d.filePath != p)

/-- The remove phase of the debounce tick: apply `remove_document` for every
buffered `Remove` path. -/
def applyTickRemoves (index : List TantivyDoc) (events : List (String × WatcherAction)) :
    List TantivyDoc :=
  (tickRemovePaths events).foldl removeDocument index

/-! ### The metadata catalog (`src-tauri/src/metadata/db.rs`) and the scan
stale check (`src/scanner/mod.rs`) -/

/-- A `FileMetadata` record of the catalog. -/
structure FileMetadata where
  path : String
  modified : Nat
  size : Nat
  contentHash : Nat
  indexedAt : Nat
deriving DecidableEq

/-- Key lookup in the `files` table. -/
def dbLookup (db : List FileMetadata) (p : String) : Option FileMetadata :=
  db.find? (fun r => r.path == p)

/-- `MetadataDb::needs_reindex`: true when there is no record for the path,
or the stored modification time or size differs. The content hash is not
consulted. -/
def needsReindex (db : List FileMetadata) (p : String) (modified size : Nat) : Bool :=
  match dbLookup db p with
  | some r => !(r.modified == modified) || !(r.size == size)
  | none => true

/-- Stand-in for the BLAKE3 content hash: an external primitive whose value
is never consulted by `needs_reindex` (which compares only the modification
time and size), so any function of the content is adequate here. -/
def contentHashModel (s : String) : Nat := s.length

/-- Upsert of one record (`redb` `table.insert` replaces by key). -/
def dbInsert (db : List FileMetadata) (r : FileMetadata) : List FileMetadata :=
  (db.filter (fun x => x.path != r.path)) ++ [r]

/-- `MetadataDb::batch_update_metadata`: upsert every entry in one write
transaction, with a shared `indexed_at` timestamp. -/
def batchUpdateMetadata (db : List FileMetadata)
    (entries : List (String × Nat × Nat × Nat)) (indexedAt : Nat) : List FileMetadata :=
  entries.foldl
    (fun d e =>
      dbInsert d
        { path := e.1, modified := e.2.1, size := e.2.2.1, contentHash := e.2.2.2,
          indexedAt := indexedAt })
    db

/-- A regular file as seen by the scanner: path, filesystem mtime (seconds),
size in bytes, and the text its parser would extract. -/
structure FsFile where
  path : String
  modified : Nat
  size : Nat
  content : String

/-- An `IndexTask` of the pipeline: the parsed document plus metadata. -/
structure IndexTask where
  doc : ParsedDocument
  modified : Nat
  size : Nat
  contentHash : Nat

/-- The format dispatcher is an external black box `parse(path) →
{content, title?}`; modelled as returning the file's extracted text. -/
def parseFileModel (f : FsFile) : ParsedDocument :=
  { path := f.path, content := f.content, title := none }

/-- `Scanner::process_file`: read the filesystem metadata, ask
`needs_reindex`, and only when it answers true call the parser and hash the
content; otherwise the file is dropped without parsing. -/
def processFile (db : List FileMetadata) (f : FsFile) : Option IndexTask :=
  if needsReindex db f.path f.modified f.size then
    some { doc := parseFileModel f, modified := f.modified, size := f.size,
           contentHash := contentHashModel f.content }
  else none

/-- Number of parser invocations for `f` during one scan whose walk visits
`f` exactly once: stage 2a calls `process_file` once per discovered path,
and `process_file` parses exactly when `needs_reindex` is true. -/
def scanParses (db : List FileMetadata) (f : FsFile) : Nat :=
  if needsReindex db f.path f.modified f.size then 1 else 0

/-- The catalog state after a scan that visits only `f`: when `f` was
processed, its record is written by the stage 2b batch update. -/
def dbAfterSingleScan (db : List FileMetadata) (f : FsFile) (indexedAt : Nat) :
    List FileMetadata :=
  match processFile db f with
  | some task =>
    batchUpdateMetadata db [(task.doc.path, task.modified, task.size, task.contentHash)] indexedAt
  | none => db

/-! ### Commit / cache-invalidation discipline (`src/scanner/mod.rs` stage
2b, `src/watcher.rs` tick, `src/indexer/searcher.rs` `QueryCache`)

The operations each write path issues against the index writer, the query
cache and the catalog are modelled as traces; cache entries are opaque
values. -/

/-- One operation of a write path. -/
inductive WriteOp where
  | addBatchOp (n : Nat)
  | commitWrite
  | invalidateCache
  | metaBatchOp (n : Nat)
  | removeDocOp (p : String)
  | metaRemoveOp (p : String)
deriving DecidableEq

/-- `BATCH_SIZE` of the scanner pipeline. -/
def batchSize : Nat := 50

/-- The operations of one stage 2b flush: batch add, commit, invalidate the
query cache, batch-write the catalog. -/
def flushBlock (n : Nat) : List WriteOp :=
  [.addBatchOp n, .commitWrite, .invalidateCache, .metaBatchOp n]

/-- The stage 2b consumer loop of `Scanner::scan_directory`: accumulate
tasks, flush whenever the document batch reaches `BATCH_SIZE`, and flush the
remainder when the channel closes. -/
def stage2bGo : List IndexTask → Nat → List WriteOp
  | [], n => if n == 0 then [] else flushBlock n
  | _ :: ts, n =>
    if batchSize ≤ n + 1 then flushBlock (n + 1) ++ stage2bGo ts 0
    else stage2bGo ts (n + 1)

/-- The full operation trace of the stage 2b consumer. -/
def stage2bTrace (tasks : List IndexTask) : List WriteOp := stage2bGo tasks 0

/-- `QueryCache::invalidate`, which calls `invalidate_all`: every entry is
dropped. -/
def queryCacheInvalidateAll (_cache : List Nat) : List Nat := []

/-- Run a write-path trace over the query-cache state. Only
`invalidateCache` touches the cache (no write-path operation inserts
entries; insertions happen in `search`, which is not part of these traces). -/
def applyCacheOps : List WriteOp → List Nat → List Nat
  | [], c => c
  | .invalidateCache :: rest, c => applyCacheOps rest (queryCacheInvalidateAll c)
  | .addBatchOp _ :: rest, c => applyCacheOps rest c
  | .commitWrite :: rest, c => applyCacheOps rest c
  | .metaBatchOp _ :: rest, c => applyCacheOps rest c
  | .removeDocOp _ :: rest, c => applyCacheOps rest c
  | .metaRemoveOp _ :: rest, c => applyCacheOps rest c

/-- Is every `commitWrite` op immediately followed by `invalidateCache`? -/
def commitsImmediatelyInvalidated : List WriteOp → Bool
  | [] => true
  | .commitWrite :: rest =>
    match rest with
    | .invalidateCache :: rest2 => commitsImmediatelyInvalidated rest2
    | _ => false
  | .addBatchOp _ :: rest => commitsImmediatelyInvalidated rest
  | .invalidateCache :: rest => commitsImmediatelyInvalidated rest
  | .metaBatchOp _ :: rest => commitsImmediatelyInvalidated rest
  | .removeDocOp _ :: rest => commitsImmediatelyInvalidated rest
  | .metaRemoveOp _ :: rest => commitsImmediatelyInvalidated rest

/-- The operation trace of one watcher debounce tick: all removes (index
delete-by-term plus catalog remove; the boolean records whether the catalog
remove found a record, which is what sets `needs_commit`), then the batch
add of re-indexed files, then — when anything changed — one commit followed
by the cache invalidation (the successful-commit path). -/
def watcherTickTrace (removes : List (String × Bool)) (addCount : Nat) : List WriteOp :=
  (removes.flatMap (fun pr => [.removeDocOp pr.1, .metaRemoveOp pr.1])) ++
    (if addCount == 0 then [] else [.addBatchOp addCount, .metaBatchOp addCount]) ++
    (if removes.any (fun pr => pr.2) || !(addCount == 0) then
      [.commitWrite, .invalidateCache]
    else [])

/-! ### Walker override assembly (`src/scanner/mod.rs`,
`src/commands/indexing.rs`, `src-tauri/src/scanner/mod.rs`) -/

/-- The default system-wide deny list of the chunked (src-tauri) scanner. -/
def systemExcludes : List String :=
  [".git", ".svn", ".hg", "node_modules", "target", "bin", "obj",
   "build", "dist", "__pycache__", "AppData", "Local Settings",
   "Application Data", "Program Files", "Windows", "$RECYCLE.BIN",
   "System Volume Information", "temp", "tmp", ".vscode", ".idea", ".next"]

/-- The override set the chunked (src-tauri) scanner hands the walker: every
system exclude and every user pattern, each as a `!**/pattern` override. -/
def tauriWalkerOverrides (userPatterns : List String) : List String :=
  systemExcludes.map (fun p => "!**/" ++ p) ++ userPatterns.map (fun p => "!**/" ++ p)

/-- The override set the pipelined scanner (`src/scanner/mod.rs`,
`scan_directory`) hands the walker: exactly the caller's exclude patterns,
each as a `!pattern` override — no system deny list is added there. -/
def pipelineWalkerOverrides (excludePatterns : List String) : List String :=
  excludePatterns.map (fun p => "!" ++ p)

/-- The exclude patterns `start_indexing_internal`
(`src/commands/indexing.rs`) passes to the pipelined scanner: the user's
`exclude_patterns` followed by the user's `exclude_folders`, nothing else. -/
def startIndexingExcludePatterns (excludePatterns excludeFolders : List String) : List String :=
  excludePatterns ++ excludeFolders

/-! ### The preview command (`src-tauri/src/commands/search.rs`) -/

/-- UTF-8 encoded size in bytes of one character. -/
def utf8CharBytes (c : Char) : Nat :=
  if c.toNat < 128 then 1
  else if c.toNat < 2048 then 2
  else if c.toNat < 65536 then 3
  else 4

/-- UTF-8 encoded size in bytes of a character list (Rust `str::len`). -/
def utf8ByteLength (cs : List Char) : Nat :=
  cs.foldl (fun a c => a + utf8CharBytes c) 0

/-- Take the prefix occupying exactly `n` UTF-8 bytes. `none` models the
Rust panic raised by `&s[..n]` when `n` is not a character boundary (or is
out of range). -/
def byteSliceTo : List Char → Nat → Option (List Char)
  | _, 0 => some []
  | [], _ + 1 => none
  | c :: rest, n + 1 =>
    let b := utf8CharBytes c
    if b ≤ n + 1 then (byteSliceTo rest (n + 1 - b)).map (fun t => c :: t) else none

/-- The outcome of building a preview. -/
inductive PreviewOutcome where
  | ok (preview : String)
  | panicked
deriving DecidableEq

/-- `get_file_preview` applied to successfully parsed content: the source
returns `doc.content[..min(doc.content.len(), 10000)].to_string()`, a BYTE
slice of the UTF-8 representation, which panics when byte offset 10000 falls
inside a multi-byte character. -/
def getFilePreview (content : String) : PreviewOutcome :=
  let cs := content.toList
  let n := Nat.min (utf8ByteLength cs) 10000
  match byteSliceTo cs n with
  | some pre => .ok (String.mk pre)
  | none => .panicked

/-! ### Concrete inputs used by the theorems -/

/-- A document whose path does not mention `docs`. -/
def helloDoc : TantivyDoc :=
  { filePath := "C:/stuff/hello.txt", content := "hello world", title := some "hello",
    modified := 0, size := 11 }

/-- A 50-byte document containing `alpha`. -/
def smallAlphaDoc : TantivyDoc :=
  { filePath := "C:/notes/alpha.txt", content := "alpha notes", title := some "alpha",
    modified := 0, size := 50 }

/-- A document of exactly 1048576 bytes containing `alpha`. -/
def exactMegDoc : TantivyDoc :=
  { filePath := "C:/big/mega.txt", content := "alpha big", title := some "mega",
    modified := 0, size := 1048576 }

/-- A watched document containing the term `needle`. -/
def needleDoc : TantivyDoc :=
  { filePath := "/w/a.txt", content := "needle stuff", title := some "a",
    modified := 0, size := 12 }

/-- A sample pipeline task. -/
def exampleTask : IndexTask :=
  { doc := { path := "/t/a.txt", content := "hello", title := some "a" },
    modified := 100, size := 5, contentHash := 5 }

/-- A sample file for the scanner. -/
def exampleFsFile : FsFile :=
  { path := "/t/a.txt", modified := 100, size := 5, content := "hello" }

/-- Extracted content of 9999 ASCII characters followed by one two-byte
character (code point 233, `é`): 10001 UTF-8 bytes, with byte offset 10000
inside the final character. -/
def previewPanicContent : String :=
  String.mk (List.replicate 9999 'a' ++ [Char.ofNat 233])

/-! ### Helper lemmas -/

/-- Lookup after an upsert finds the new record. -/
theorem find?_upsert (db : List FileMetadata) (r : FileMetadata) :
    ((db.filter fun x => x.path != r.path) ++ [r]).find? (fun x => x.path == r.path) = some r := by
  induction db with
  | nil => simp [List.find?]
  | cons a db ih =>
    by_cases h : a.path = r.path
    · simp only [List.filter_cons, h]
      simp [ih]
    · simp [List.filter_cons, h, List.find?, ih]

/-- `dbLookup` after `dbInsert` finds the inserted record. -/
theorem dbLookup_dbInsert_self (db : List FileMetadata) (r : FileMetadata) :
    dbLookup (dbInsert db r) r.path = some r := by
  unfold dbLookup dbInsert
  exact find?_upsert db r

/-- A flush block prepended to a trace preserves the immediate-invalidate
property of the tail. -/
theorem cII_flushBlock (n : Nat) (l : List WriteOp) :
    commitsImmediatelyInvalidated (flushBlock n ++ l) = commitsImmediatelyInvalidated l := rfl

/-- A lone flush block satisfies the immediate-invalidate property. -/
theorem cII_flushBlock_nil (n : Nat) : commitsImmediatelyInvalidated (flushBlock n) = true := rfl

/-- The stage 2b trace always satisfies the immediate-invalidate property. -/
theorem stage2bGo_cII (ts : List IndexTask) :
    ∀ n, commitsImmediatelyInvalidated (stage2bGo ts n) = true := by
  induction ts with
  | nil =>
    intro n
    unfold stage2bGo
    split
    · rfl
    · exact cII_flushBlock_nil n
  | cons t ts ih =>
    intro n
    unfold stage2bGo
    split
    · rw [cII_flushBlock]; exact ih 0
    · exact ih (n + 1)

/-- Trace application composes over concatenation. -/
theorem applyCacheOps_append (l₁ l₂ : List WriteOp) (c : List Nat) :
    applyCacheOps (l₁ ++ l₂) c = applyCacheOps l₂ (applyCacheOps l₁ c) := by
  induction l₁ generalizing c with
  | nil => rfl
  | cons a l ih => cases a <;> simp [applyCacheOps, ih]

/-- No write-path operation inserts cache entries: an empty cache stays
empty. -/
theorem applyCacheOps_nil_cache (l : List WriteOp) : applyCacheOps l [] = [] := by
  induction l with
  | nil => rfl
  | cons a l ih => cases a <;> simp [applyCacheOps, queryCacheInvalidateAll, ih]

/-- A flush block clears the cache. -/
theorem applyCacheOps_flushBlock (n : Nat) (c : List Nat) :
    applyCacheOps (flushBlock n) c = [] := rfl

/-- A flush block followed by a tail: the tail starts from an empty cache. -/
theorem applyCacheOps_flushBlock_append (n : Nat) (l : List WriteOp) (c : List Nat) :
    applyCacheOps (flushBlock n ++ l) c = applyCacheOps l [] := rfl

/-- If the stage 2b trace commits at all, it leaves the cache empty. -/
theorem stage2bGo_cache (ts : List IndexTask) :
    ∀ n (c : List Nat), WriteOp.commitWrite ∈ stage2bGo ts n →
      applyCacheOps (stage2bGo ts n) c = [] := by
  induction ts with
  | nil =>
    intro n c hm
    by_cases h : n = 0
    · subst h; simp [stage2bGo] at hm
    · have e : stage2bGo [] n = flushBlock n := by simp [stage2bGo, h]
      rw [e]; exact applyCacheOps_flushBlock n c
  | cons t ts ih =>
    intro n c hm
    by_cases h : batchSize ≤ n + 1
    · have e : stage2bGo (t :: ts) n = flushBlock (n + 1) ++ stage2bGo ts 0 := by
        simp [stage2bGo, h]
      rw [e, applyCacheOps_flushBlock_append]
      exact applyCacheOps_nil_cache _
    · have e : stage2bGo (t :: ts) n = stage2bGo ts (n + 1) := by simp [stage2bGo, h]
      rw [e] at hm ⊢
      exact ih (n + 1) c hm

/-- Prepending commit-free operations preserves the immediate-invalidate
property of the tail. -/
theorem cII_append_no_commit (l₁ l₂ : List WriteOp) (h : WriteOp.commitWrite ∉ l₁) :
    commitsImmediatelyInvalidated (l₁ ++ l₂) = commitsImmediatelyInvalidated l₂ := by
  induction l₁ with
  | nil => rfl
  | cons a l ih =>
    have ha : a ≠ WriteOp.commitWrite := fun e => h (by simp [e])
    have h' : WriteOp.commitWrite ∉ l := fun m => h (List.mem_cons_of_mem a m)
    cases a with
    | commitWrite => exact absurd rfl ha
    | addBatchOp n => simpa [commitsImmediatelyInvalidated] using ih h'
    | invalidateCache => simpa [commitsImmediatelyInvalidated] using ih h'
    | metaBatchOp n => simpa [commitsImmediatelyInvalidated] using ih h'
    | removeDocOp p => simpa [commitsImmediatelyInvalidated] using ih h'
    | metaRemoveOp p => simpa [commitsImmediatelyInvalidated] using ih h'

/-- The watcher tick trace always satisfies the immediate-invalidate
property. -/
theorem watcherTick_cII (removes : List (String × Bool)) (addCount : Nat) :
    commitsImmediatelyInvalidated (watcherTickTrace removes addCount) = true := by
  unfold watcherTickTrace
  have h1 : WriteOp.commitWrite ∉
      removes.flatMap (fun pr => [WriteOp.removeDocOp pr.1, WriteOp.metaRemoveOp pr.1]) := by
    simp [List.mem_flatMap]
  have h2 : WriteOp.commitWrite ∉
      (if addCount == 0 then ([] : List WriteOp)
       else [WriteOp.addBatchOp addCount, WriteOp.metaBatchOp addCount]) := by
    split <;> simp
  rw [List.append_assoc, cII_append_no_commit _ _ h1, cII_append_no_commit _ _ h2]
  split <;> rfl

/-- If the watcher tick trace commits at all, it leaves the cache empty. -/
theorem watcherTick_cache (removes : List (String × Bool)) (addCount : Nat) (c : List Nat)
    (hm : WriteOp.commitWrite ∈ watcherTickTrace removes addCount) :
    applyCacheOps (watcherTickTrace removes addCount) c = [] := by
  unfold watcherTickTrace at hm ⊢
  cases hcond : (removes.any (fun pr => pr.2) || !(addCount == 0)) with
  | false =>
    exfalso
    rw [hcond] at hm
    simp [List.mem_flatMap] at hm
  | true =>
    rw [if_pos rfl, applyCacheOps_append]
    rfl

/-- Folding the byte counter from any accumulator. -/
theorem utf8ByteLength_acc (cs : List Char) :
    ∀ a : Nat, cs.foldl (fun x c => x + utf8CharBytes c) a = a + utf8ByteLength cs := by
  induction cs with
  | nil => intro a; simp [utf8ByteLength]
  | cons c cs ih =>
    intro a
    simp only [utf8ByteLength, List.foldl_cons]
    rw [ih (a + utf8CharBytes c), ih (0 + utf8CharBytes c)]
    omega

/-- Byte length of a replicated one-byte prefix. -/
theorem utf8ByteLength_replicate_a (k : Nat) (rest : List Char) :
    utf8ByteLength (List.replicate k 'a' ++ rest) = k + utf8ByteLength rest := by
  induction k with
  | zero => simp
  | succ k ih =>
    have e1 : List.replicate (k + 1) 'a' ++ rest = 'a' :: (List.replicate k 'a' ++ rest) := by
      simp [List.replicate_succ]
    rw [e1]
    have e4 : utf8ByteLength ('a' :: (List.replicate k 'a' ++ rest)) =
        List.foldl (fun x c => x + utf8CharBytes c) (0 + utf8CharBytes 'a')
          (List.replicate k 'a' ++ rest) := rfl
    rw [e4, utf8ByteLength_acc, ih]
    have ha : utf8CharBytes 'a' = 1 := rfl
    rw [ha]
    omega

/-- Unfolding of `getFilePreview` for a symbolic content string. -/
theorem getFilePreview_eq (content : String) :
    getFilePreview content =
      match byteSliceTo content.toList (Nat.min (utf8ByteLength content.toList) 10000) with
      | some pre => PreviewOutcome.ok (String.mk pre)
      | none => PreviewOutcome.panicked := rfl

/-- Byte slicing walks through a replicated one-byte prefix. -/
theorem byteSliceTo_replicate_a (k : Nat) (rest : List Char) (m : Nat) :
    byteSliceTo (List.replicate k 'a' ++ rest) (k + m) =
      (byteSliceTo rest m).map (fun t => List.replicate k 'a' ++ t) := by
  induction k with
  | zero =>
    simp
  | succ k ih =>
    have e1 : List.replicate (k + 1) 'a' ++ rest = 'a' :: (List.replicate k 'a' ++ rest) := by
      simp [List.replicate_succ]
    have e2 : k + 1 + m = (k + m) + 1 := by omega
    rw [e1, e2]
    have ha : utf8CharBytes 'a' = 1 := rfl
    have hle : utf8CharBytes 'a' ≤ (k + m) + 1 := by rw [ha]; omega
    simp only [byteSliceTo, ha, if_pos (by omega : (1 : Nat) ≤ (k + m) + 1)]
    have e3 : (k + m) + 1 - 1 = k + m := by omega
    rw [e3, ih]
    cases byteSliceTo rest m with
    | none => rfl
    | some t => simp [List.replicate_succ]

/-! ### The claims -/

/-- C1: the claim says every (re-)add for a path is preceded by a
delete-by-term on `file_path`, keeping at most one live document per path.
Evaluating the writer at the failing re-index sequence shows otherwise:
`add_documents_batch` only appends, so re-adding `/t/a.txt` leaves two live
documents with that `file_path`. -/
theorem C1_duplicate_add_eval :
    (addDocumentsBatch
        (addDocumentsBatch []
          [({ path := "/t/a.txt", content := "hello", title := some "a" }, 100, 5)])
        [({ path := "/t/a.txt", content := "world", title := some "a" }, 200, 5)]).countP
      (fun d => d.filePath == "/t/a.txt") = 2 := by decide

/-- C2: the claim says removing a watched file records a `Remove` action
which the next tick applies, so the file stops being searchable. Evaluating
the handler at the failing input: a `Remove` event arrives for a path that
no longer exists (`path.is_file()` is false), so the handler records
nothing, the tick removes nothing, and a search for the unique term still
returns the document. -/
theorem C2_watcher_remove_dropped_eval :
    handleFsEvent [] .removeEv [("/w/a.txt", false)] = [] ∧
    applyTickRemoves [needleDoc] (handleFsEvent [] .removeEv [("/w/a.txt", false)]) = [needleDoc] ∧
    search phraseSemUnspecified [needleDoc] "needle" 10 none none none =
      .ok [{ filePath := "/w/a.txt", title := some "a", matchedTerms := ["needle"] }] := by
  decide

/-- C3 counterexample: a search for `path:docs hello` returns a document
whose `file_path` does not contain `docs`, so the inline `path:` operator is
not a predicate on the results (and the result fails `matches_path`). -/
theorem C3_path_filter_counterexample :
    search phraseSemUnspecified [helloDoc] "path:docs hello" 10 none none none =
      .ok [{ filePath := "C:/stuff/hello.txt", title := some "hello",
             matchedTerms := ["hello"] }] ∧
    (ParsedQuery.parse "path:docs hello").pathFilter = some "docs" ∧
    (ParsedQuery.parse "path:docs hello").matchesPath "C:/stuff/hello.txt" = false := by
  decide

/-- C3 amended: `matches_path` / `matches_title` do implement case-
insensitive substring predicates, but `search` never applies them — its
result depends on the parsed query only through `text_query`, so returned
results need not satisfy the `path:` or `title:` predicates. -/
theorem C3_filters_parsed_but_unapplied :
    (∀ (p : ParsedQuery) (f s : String), p.pathFilter = some f →
        p.matchesPath s = containsSubstr (lowerString s) f) ∧
    (∀ (p : ParsedQuery) (f t : String), p.titleFilter = some f →
        p.matchesTitle (some t) = containsSubstr (lowerString t) f) ∧
    (∀ (p : ParsedQuery) (f : String), p.titleFilter = some f →
        p.matchesTitle none = false) ∧
    (∀ (ps : String → TantivyDoc → Bool) (index : List TantivyDoc) (p q : ParsedQuery)
        (hl : List String) (limit : Nat) (mn mx : Option Nat) (ex : Option (List String)),
        p.textQuery = q.textQuery →
          searchCore ps index p hl limit mn mx ex = searchCore ps index q hl limit mn mx ex) := by
  refine ⟨?_, ?_, ?_, ?_⟩
  · intro p f s h; simp [ParsedQuery.matchesPath, h]
  · intro p f t h; simp [ParsedQuery.matchesTitle, h]
  · intro p f h; simp [ParsedQuery.matchesTitle, h]
  · intro ps index p q hl limit mn mx ex h
    unfold searchCore
    rw [h]

/-- C3 witness: the amended theorem applied at the counterexample query —
dropping the parsed `path_filter` does not change the search result. -/
theorem C3_filters_parsed_but_unapplied_witness :
    searchCore phraseSemUnspecified [helloDoc] (ParsedQuery.parse "path:docs hello")
        ["hello"] 10 none none none =
      searchCore phraseSemUnspecified [helloDoc]
        { ParsedQuery.parse "path:docs hello" with pathFilter := none }
        ["hello"] 10 none none none :=
  C3_filters_parsed_but_unapplied.2.2.2 phraseSemUnspecified [helloDoc]
    (ParsedQuery.parse "path:docs hello")
    { ParsedQuery.parse "path:docs hello" with pathFilter := none }
    ["hello"] 10 none none none rfl

/-- C4 counterexample: `size:>1MB` parses to `min_size = 1048576` (not
1048577); the parsed bound is not applied by `search` (a 50-byte document is
returned for `size:>1MB alpha` with no explicit bounds); and the explicit
`min_size` argument is an inclusive bound (a document of exactly 1048576
bytes is returned), all contradicting the claimed strict behaviour. -/
theorem C4_size_bound_counterexample :
    (ParsedQuery.parse "size:>1MB").minSize = some 1048576 ∧
    search phraseSemUnspecified [smallAlphaDoc] "size:>1MB alpha" 10 none none none =
      .ok [{ filePath := "C:/notes/alpha.txt", title := some "alpha",
             matchedTerms := ["alpha"] }] ∧
    search phraseSemUnspecified [exactMegDoc] "alpha" 10 (some 1048576) none none =
      .ok [{ filePath := "C:/big/mega.txt", title := some "mega",
             matchedTerms := ["alpha"] }] := by
  decide

/-- C4 amended: parsing `size:>NUB` sets `min_size` to exactly N units (for
`size:>1MB`, 1048576); the searcher never reads the parsed bounds (its
outcome is invariant under them), and the explicit `min_size` argument
becomes the inclusive range `[min, u64::MAX]`, so documents of exactly
`min_size` bytes are matched. -/
theorem C4_size_semantics :
    (ParsedQuery.parse "size:>1MB").minSize = some 1048576 ∧
    (∀ (ps : String → TantivyDoc → Bool) (d : TantivyDoc) (m : Nat), d.size ≤ u64Max →
        evalQuery ps d (TQuery.rangeSizeQ m u64Max) = decide (m ≤ d.size)) ∧
    (∀ (ps : String → TantivyDoc → Bool) (index : List TantivyDoc) (p : ParsedQuery)
        (hl : List String) (limit : Nat) (mn mx : Option Nat) (ex : Option (List String))
        (a b : Option Nat),
        searchCore ps index { p with minSize := a, maxSize := b } hl limit mn mx ex =
          searchCore ps index p hl limit mn mx ex) := by
  refine ⟨by decide, ?_, ?_⟩
  · intro ps d m h
    simp [evalQuery, h]
  · intro ps index p hl limit mn mx ex a b
    rfl

/-- C4 witness: the amended theorem applied to the document of exactly
1048576 bytes — the inclusive range clause for `min_size = 1048576` accepts
it. -/
theorem C4_size_semantics_witness :
    evalQuery phraseSemUnspecified exactMegDoc (TQuery.rangeSizeQ 1048576 u64Max) =
      decide ((1048576 : Nat) ≤ exactMegDoc.size) :=
  C4_size_semantics.2.1 phraseSemUnspecified exactMegDoc 1048576 (by decide)

/-- C5: `needs_reindex` is false exactly when a record with the same
`(modified, size)` exists; `process_file` never parses when it is false; and
a scan of a stale file followed by a scan of the unchanged file parses it
exactly once (the second scan finds the freshly written record). -/
theorem C5_skip_if_unchanged :
    (∀ (db : List FileMetadata) (p : String) (m s : Nat),
        needsReindex db p m s = false ↔
          ∃ r, dbLookup db p = some r ∧ r.modified = m ∧ r.size = s) ∧
    (∀ (db : List FileMetadata) (f : FsFile),
        needsReindex db f.path f.modified f.size = false → processFile db f = none) ∧
    (∀ (db : List FileMetadata) (f : FsFile) (t : Nat),
        needsReindex db f.path f.modified f.size = true →
          scanParses db f = 1 ∧ scanParses (dbAfterSingleScan db f t) f = 0) := by
  refine ⟨?_, ?_, ?_⟩
  · intro db p m s
    cases h : dbLookup db p with
    | none => simp [needsReindex, h]
    | some r => simp [needsReindex, h]
  · intro db f h
    simp [processFile, h]
  · intro db f t h
    refine ⟨by simp [scanParses, h], ?_⟩
    have hrec := dbLookup_dbInsert_self db
      { path := f.path, modified := f.modified, size := f.size,
        contentHash := contentHashModel f.content, indexedAt := t }
    simp only [dbAfterSingleScan, processFile, h, if_true, batchUpdateMetadata,
      parseFileModel, List.foldl]
    simp [scanParses, needsReindex, hrec]

/-- C5 witness: a fresh catalog and one file — the first scan parses once,
the second scan of the unchanged file parses zero times. -/
theorem C5_skip_if_unchanged_witness :
    scanParses [] exampleFsFile = 1 ∧
    scanParses (dbAfterSingleScan [] exampleFsFile 1000) exampleFsFile = 0 :=
  C5_skip_if_unchanged.2.2 [] exampleFsFile 1000 (by decide)

/-- C6: in the stage 2b consumer (batch flush and final flush) and in the
watcher tick, every commit of the inverted index is immediately followed by
`QueryCache::invalidate` (which drops all entries), and any trace that
commits leaves the query cache empty — no later search can observe results
cached from before the commit. -/
theorem C6_commit_invalidates_cache :
    (∀ tasks : List IndexTask,
        commitsImmediatelyInvalidated (stage2bTrace tasks) = true) ∧
    (∀ (removes : List (String × Bool)) (addCount : Nat),
        commitsImmediatelyInvalidated (watcherTickTrace removes addCount) = true) ∧
    (∀ (tasks : List IndexTask) (c : List Nat),
        WriteOp.commitWrite ∈ stage2bTrace tasks →
          applyCacheOps (stage2bTrace tasks) c = []) ∧
    (∀ (removes : List (String × Bool)) (addCount : Nat) (c : List Nat),
        WriteOp.commitWrite ∈ watcherTickTrace removes addCount →
          applyCacheOps (watcherTickTrace removes addCount) c = []) := by
  refine ⟨fun tasks => stage2bGo_cII tasks 0, watcherTick_cII, ?_, watcherTick_cache⟩
  intro tasks c hm
  exact stage2bGo_cache tasks 0 c hm

/-- C6 witness: a one-task scan commits (final flush) and leaves the cache
empty. -/
theorem C6_commit_invalidates_cache_witness :
    applyCacheOps (stage2bTrace [exampleTask]) [7] = [] :=
  C6_commit_invalidates_cache.2.2.1 [exampleTask] [7] (by decide)

/-- C7: `build_fuzzy_query` turns a quoted-phrase text over to the
positional phrase parser; with no tokens or a lone `*` it is match-all; a
single token becomes the OR of the exact term query and the fuzzy term
query with Levenshtein distance 2 on `content`; two or more tokens are that
OR per token, combined with AND; and `ParsedQuery::parse` substitutes `*`
when the free-text portion is empty. -/
theorem C7_query_composition :
    (∀ tq : String, hasQuotedPhrase tq = true →
        buildFuzzyQuery tq = .phraseParsed tq) ∧
    (∀ tq : String, hasQuotedPhrase tq = false → splitWSStr tq = [] →
        buildFuzzyQuery tq = .allQ) ∧
    (∀ tq : String, hasQuotedPhrase tq = false → splitWSStr tq = ["*"] →
        buildFuzzyQuery tq = .allQ) ∧
    (∀ (tq t : String), hasQuotedPhrase tq = false → splitWSStr tq = [t] → t ≠ "*" →
        buildFuzzyQuery tq = orPair t) ∧
    (∀ (tq : String) (ts : List String), hasQuotedPhrase tq = false → splitWSStr tq = ts →
        2 ≤ ts.length →
        buildFuzzyQuery tq = .boolQ (ts.map (fun t => (.must, orPair t)))) ∧
    (∀ q : String, cleanedFreeText q = "" → (ParsedQuery.parse q).textQuery = "*") := by
  refine ⟨?_, ?_, ?_, ?_, ?_, ?_⟩
  · intro tq h; simp [buildFuzzyQuery, h]
  · intro tq h h2; simp [buildFuzzyQuery, h, h2]
  · intro tq h h2; simp [buildFuzzyQuery, h, h2]
  · intro tq t h h2 h3; simp [buildFuzzyQuery, h, h2, h3]
  · intro tq ts h h2 hlen
    have h0 : ts.isEmpty = false := by
      cases ts with
      | nil => simp at hlen
      | cons a l => simp
    have h1 : (ts.length == 1) = false := by
      simp only [beq_eq_false_iff_ne, ne_eq]
      omega
    simp [buildFuzzyQuery, h, h2, h0, h1]
  · intro q h; simp [ParsedQuery.parse, h]

/-- C7 witness: the composition theorem applied at concrete queries. -/
theorem C7_query_composition_witness :
    buildFuzzyQuery "hello" = orPair "hello" ∧
    buildFuzzyQuery "\"quick fox\"" = TQuery.phraseParsed "\"quick fox\"" ∧
    (ParsedQuery.parse "ext:pdf").textQuery = "*" :=
  ⟨C7_query_composition.2.2.2.1 "hello" "hello" (by decide) (by decide) (by decide),
   C7_query_composition.1 "\"quick fox\"" (by decide),
   C7_query_composition.2.2.2.2.2 "ext:pdf" (by decide)⟩

/-- C8 counterexample: the pipelined scanner's walker override set for a
scan with no user patterns is empty — no default deny-list entry (such as
one naming `.git`) is merged in, contradicting the claim that every scan's
override set includes the system deny list. -/
theorem C8_default_excludes_counterexample :
    pipelineWalkerOverrides (startIndexingExcludePatterns [] []) = ([] : List String) ∧
    ¬ ("!**/.git" ∈ pipelineWalkerOverrides (startIndexingExcludePatterns [] [])) ∧
    ¬ ("!.git" ∈ pipelineWalkerOverrides (startIndexingExcludePatterns [] [])) := by
  refine ⟨rfl, by simp [pipelineWalkerOverrides, startIndexingExcludePatterns], ?_⟩
  simp [pipelineWalkerOverrides, startIndexingExcludePatterns]

/-- C8 amended: only the chunked (src-tauri) scanner merges the default
system deny list — which does include the ten directories named by the
claim — with the user patterns (each as a `!**/pattern` override); the
pipelined scanner passes exactly the user's `exclude_patterns ++
exclude_folders`, each as a `!pattern` override, with no default deny
list. -/
theorem C8_override_assembly :
    (∀ userPatterns : List String,
        tauriWalkerOverrides userPatterns =
          systemExcludes.map (fun p => "!**/" ++ p) ++
            userPatterns.map (fun p => "!**/" ++ p)) ∧
    ([".git", "node_modules", "target", "$RECYCLE.BIN", "System Volume Information",
      "Program Files", "Windows", ".idea", ".vscode", "__pycache__"].all
        (fun s => systemExcludes.contains s)) = true ∧
    (∀ pats folders : List String,
        pipelineWalkerOverrides (startIndexingExcludePatterns pats folders) =
          (pats ++ folders).map (fun p => "!" ++ p)) := by
  refine ⟨fun _ => rfl, by decide, fun pats folders => rfl⟩

/-- C9: the claim says `get_file_preview` returns the first 10000 characters
and never panics. Evaluating the byte-slicing code at the failing input —
content of 9999 one-byte characters followed by one two-byte character —
shows the slice boundary at byte 10000 falls inside the final character and
the code panics. -/
theorem C9_preview_panics_eval : getFilePreview previewPanicContent = .panicked := by
  have hrest : byteSliceTo [Char.ofNat 233] 1 = none := by decide
  have hlen : utf8ByteLength (List.replicate 9999 'a' ++ [Char.ofNat 233]) = 10001 := by
    rw [utf8ByteLength_replicate_a]
    decide
  have hslice : byteSliceTo (List.replicate 9999 'a' ++ [Char.ofNat 233]) 10000 = none := by
    have h := byteSliceTo_replicate_a 9999 [Char.ofNat 233] 1
    rw [show (10000 : Nat) = 9999 + 1 from rfl, h, hrest]
    rfl
  have ht : previewPanicContent.toList = List.replicate 9999 'a' ++ [Char.ofNat 233] := rfl
  rw [getFilePreview_eq, ht, hlen, show Nat.min 10001 10000 = 10000 from rfl, hslice]

/-- C10: the claim says `search` with `limit = 0` returns `Ok` with an empty
list. Evaluating the code at the failing input: `search` hands the limit
straight to `TopDocs::with_limit`, whose `limit >= 1` assertion panics. -/
theorem C10_zero_limit_panics_eval :
    search phraseSemUnspecified [] "hello" 0 none none none = .panicked ∧
    search phraseSemUnspecified [helloDoc] "hello" 0 none none none = .panicked := by
  decide

/-! ### Sanity anchors: the query-parser unit tests of the source, evaluated
on the embedding. -/

example : (ParsedQuery.parse "ext:pdf report").extension = some "pdf" ∧
    (ParsedQuery.parse "ext:pdf report").textQuery = "report" := by decide

example : (ParsedQuery.parse "path:documents important").pathFilter = some "documents" ∧
    (ParsedQuery.parse "path:documents important").textQuery = "important" := by decide

example : (ParsedQuery.parse "size:>1MB document").minSize = some 1048576 ∧
    (ParsedQuery.parse "size:>1MB document").textQuery = "document" := by decide

example : (ParsedQuery.parse "ext:pdf path:reports annual size:<10MB").extension = some "pdf" ∧
    (ParsedQuery.parse "ext:pdf path:reports annual size:<10MB").pathFilter = some "reports" ∧
    (ParsedQuery.parse "ext:pdf path:reports annual size:<10MB").maxSize = some 10485760 ∧
    (ParsedQuery.parse "ext:pdf path:reports annual size:<10MB").textQuery = "annual" := by
  decide

end FindAll
